import Mathlib

/-!
Verification of the QuantumGRN optimizer (`qscgrn/optimizer.py`).

The development is a shallow embedding of the optimizer module over exact
rationals: every numpy float expression is modelled by the corresponding `ℚ`
expression, numpy vectors by `List ℚ`, and the `pd.Series` objects keyed by
(control gene, target gene) pairs by total functions `Gene × Gene → ℚ`
(per the data model, the key space of `theta` and of the gradient is the full
product genes × genes, fixed at construction).  Python exceptions are
modelled by `Except String`, carrying the source's message strings.

`np.log` is transcendental and is modelled by an abstract parameter
`log : ℚ → ℚ`; theorems that need a property of the true logarithm
(only `log 1 = 0`) take it as a hypothesis.

The quantum-circuit collaborator (`qcircuit` module) is not part of the
optimizer source; it is modelled from the spec as an abstract structure of
pure functions of the current parameters (`Circuit` below).
-/

namespace QSCGRN

abbrev Gene := String

/-- A (control, target) key of the parameter and gradient series. -/
abbrev GKey := Gene × Gene

/-- A numpy vector of floats, modelled as a list of rationals. -/
abbrev Dist := List ℚ

/-- Elementwise product of two vectors (numpy `*` on same-shape arrays). -/
def ewMul (a b : Dist) : Dist := List.zipWith (fun x y => x * y) a b

/-- Elementwise difference of two vectors (numpy `-`). -/
def ewSub (a b : Dist) : Dist := List.zipWith (fun x y => x - y) a b

/-- Elementwise quotient of two vectors (numpy `/`). -/
def ewDiv (a b : Dist) : Dist := List.zipWith (fun x y => x / y) a b

/-- Embedding of `_loss_function(p_out, p_obs, method)`.  `np.log` is the
abstract `log` parameter; the `else` branch raises `ValueError`. -/
def _loss_function (log : ℚ → ℚ) (p_out p_obs : Dist) (method : String) :
    Except String ℚ :=
  if method = "kl-divergence" then
    Except.ok (List.sum (ewMul p_out ((ewDiv p_out p_obs).map log)))
  else if method = "difference" then
    Except.ok (List.sum ((ewSub p_out p_obs).map (fun x => x ^ 2)))
  else
    Except.error ("No method to compute the loss function")

/-- Embedding of `_compute_error(p_out, p_obs)`: `np.sum(np.power(p_out - p_obs, 2))`. -/
def _compute_error (p_out p_obs : Dist) : ℚ :=
  List.sum ((ewSub p_out p_obs).map (fun x => x ^ 2))

/-- Embedding of `_laplace_smooth(distribution, ncells)` with `alpha = 1`:
scale to counts, add one to every bin, renormalize by the new total. -/
def _laplace_smooth (distribution : Dist) (ncells : ℕ) : Dist × ℚ :=
  let alpha : ℚ := 1
  let dim : ℕ := distribution.length
  let d := distribution.map (fun x => (ncells : ℚ) * x)
  let N := List.sum d
  let d2 := d.map (fun x => x + alpha)
  let N2 := N + alpha * (dim : ℚ)
  (d2.map (fun x => x / N2), N2)

/-- Modelled from the spec: the quantum-circuit collaborator (the `qcircuit`
module is outside the optimizer source).  Its interface is pure in the current
parameters: `generate_circuit()` rebuilds internal structure from `theta`, so
`output_probabilities`, `output_state` and the per-key derivative table
produced by `compute_derivatives()` are functions of `theta`. -/
structure Circuit where
  outputProbabilities : (GKey → ℚ) → Dist
  outputState : (GKey → ℚ) → Dist
  derivatives : (GKey → ℚ) → GKey → Dist

/-- The unsupported-method message raised by `compute_gradient`, naming the
offending method. -/
def gradientUnsupportedMsg (method : String) : String :=
  "The " ++ method ++ " method is not supported in the QuantumGRN modelling"

/-- One state's contribution column of `compute_gradient`:
`(1 + log) * 2 * v * der_state * (N_out / h_N_out)` elementwise. -/
def derLossTerm (logv v ds : Dist) (scale : ℚ) : Dist :=
  List.zipWith (fun p d => p * d * scale)
    (List.zipWith (fun l x => (1 + l) * 2 * x) logv v) ds

/-- Embedding of `model.compute_gradient`.  The attribute reads of the Python
method appear as arguments; the mutation of `self.gradient` becomes the
returned function.  `dv = none` models an empty derivative table, rejected by
the leading `self._der_is_empty()` check (the `qcircuit` check itself is
modelled from the spec: an empty derivative table is a fatal error).
The stored `self.p_out`, `self.h_p_out`, `self.h_p_obs` are pure functions of
the inputs and are recomputed where needed. -/
def compute_gradient (log : ℚ → ℚ) (method : String) (train_encoder : Bool)
    (genes : List Gene) (edges : List GKey) (ncells : ℕ)
    (p_obs p_out v : Dist) (dv : Option (GKey → Dist)) (gradient : GKey → ℚ) :
    Except String (GKey → ℚ) :=
  match dv with
  | none => Except.error ("The derivatives for the quantum circuit are empty")
  | some dv =>
    let hOut := _laplace_smooth p_out ncells
    let hObs := _laplace_smooth p_obs ncells
    let h_p_out := hOut.1
    let h_N_out := hOut.2
    let h_p_obs := hObs.1
    let N_out : ℚ := (ncells : ℚ)
    if method = "kl-divergence" then
      let logv := (ewDiv h_p_out h_p_obs).map log
      let g1 :=
        if train_encoder then
          genes.foldl (fun g gene =>
            Function.update g (gene, gene)
              (List.sum (derLossTerm logv v (dv (gene, gene)) (N_out / h_N_out))))
            gradient
        else gradient
      let g2 :=
        edges.foldl (fun g edge =>
          Function.update g edge
            (List.sum (derLossTerm logv v (dv edge) (N_out / h_N_out)))) g1
      Except.ok g2
    else
      Except.error (gradientUnsupportedMsg method)

/-- The elementwise logarithm column `log(h_p_out / h_p_obs)` of
`compute_gradient`. -/
def klLogv (log : ℚ → ℚ) (ncells : ℕ) (p_obs p_out : Dist) : Dist :=
  (ewDiv (_laplace_smooth p_out ncells).1 (_laplace_smooth p_obs ncells).1).map log

/-- The rescaling factor `N_out / h_N_out` of `compute_gradient`. -/
def klScale (ncells : ℕ) (p_out : Dist) : ℚ :=
  (ncells : ℚ) / (_laplace_smooth p_out ncells).2

/-- The per-key scalar gradient value written by `compute_gradient`:
`np.sum(der_loss)`. -/
def klGradVal (log : ℚ → ℚ) (ncells : ℕ) (p_obs p_out v : Dist)
    (dv : GKey → Dist) (k : GKey) : ℚ :=
  List.sum (derLossTerm (klLogv log ncells p_obs p_out) v (dv k)
    (klScale ncells p_out))

/-- The construction parameters of `model.__init__` that `train` reads.
`lr` is the learning rate: the source stores the one-element tuple
`(learning_rate,)`, which pandas broadcasts over the gradient series exactly
as the scalar does, so it is modelled as the scalar. -/
structure Params where
  ncells : ℕ
  p_obs : Dist
  epochs : ℕ
  lr : ℚ
  method : String
  train_encoder : Bool
  loss_threshold : ℚ
  save_theta : Bool
  genes : List Gene
  edges : List GKey

/-- The mutable state of one `model` instance during `train`, plus the ghost
counter `updates` of executed parameter-update steps (specification only). -/
structure TrainState where
  theta : GKey → ℚ
  gradient : GKey → ℚ
  loss : List ℚ
  error : List ℚ
  training_theta : List (GKey → ℚ)
  updates : ℕ

/-- The state after the recording phase of one epoch of `train`: the epoch's
gradient stored, loss and error written at index `epoch` of the pre-allocated
histories, and (when `save_theta`) the current `theta` appended to the
snapshot list. -/
def recordEpoch (P : Params) (c : Circuit) (s : TrainState) (epoch : ℕ)
    (grad : GKey → ℚ) (loss : ℚ) : TrainState :=
  let s1 : TrainState :=
    { s with gradient := grad, loss := s.loss.set epoch loss,
             error := s.error.set epoch
               (_compute_error (c.outputProbabilities s.theta) P.p_obs) }
  if P.save_theta then
    { s1 with training_theta := s1.training_theta ++ [s1.theta] }
  else s1

/-- The terminal state of `train` when the stop condition fires at `epoch`:
both histories truncated to `epoch + 1` entries (`self.loss[:epoch+1]`). -/
def stopState (P : Params) (c : Circuit) (s : TrainState) (epoch : ℕ)
    (grad : GKey → ℚ) (loss : ℚ) : TrainState :=
  { recordEpoch P c s epoch grad loss with
    loss := (recordEpoch P c s epoch grad loss).loss.take (epoch + 1),
    error := (recordEpoch P c s epoch grad loss).error.take (epoch + 1) }

/-- The state passed to the next epoch when the stop condition does not fire:
the parameter-update step `theta ← theta - lr * gradient` over every key,
with the ghost update counter incremented. -/
def contState (P : Params) (c : Circuit) (s : TrainState) (epoch : ℕ)
    (grad : GKey → ℚ) (loss : ℚ) : TrainState :=
  { recordEpoch P c s epoch grad loss with
    theta := fun k => (recordEpoch P c s epoch grad loss).theta k -
      P.lr * (recordEpoch P c s epoch grad loss).gradient k,
    updates := (recordEpoch P c s epoch grad loss).updates + 1 }

/-- Embedding of the body of `model.train`: the `for epoch in range(epochs)`
loop, with `fuel` the number of remaining iterations (`fuel + epoch = epochs`
at every call from `train`).  Each iteration recomputes derivatives, assembles
the gradient (its loss evaluation reuses the smoothed distributions that
`compute_gradient` stores in `self.h_p_out` / `self.h_p_obs`, recomputed here
as the same pure expressions), records loss and error at index `epoch`,
optionally snapshots `theta`, and either stops (truncating both histories to
`epoch + 1`) or updates `theta ← theta - lr * gradient` and regenerates the
circuit (the next iteration evaluates the circuit collaborator at the new
`theta`).  A raised exception propagates out as `Except.error`.  The progress
bar is observational and omitted. -/
def trainAux (P : Params) (c : Circuit) (log : ℚ → ℚ) :
    (fuel : ℕ) → (epoch : ℕ) → TrainState → Except String TrainState
  | 0, _, s => Except.ok s
  | fuel + 1, epoch, s =>
    match compute_gradient log P.method P.train_encoder P.genes P.edges
        P.ncells P.p_obs (c.outputProbabilities s.theta) (c.outputState s.theta)
        (some (c.derivatives s.theta)) s.gradient with
    | Except.error e => Except.error e
    | Except.ok grad =>
      match _loss_function log (_laplace_smooth (c.outputProbabilities s.theta) P.ncells).1
          (_laplace_smooth P.p_obs P.ncells).1 P.method with
      | Except.error e => Except.error e
      | Except.ok loss =>
        if P.loss_threshold > loss ∨ epoch + 1 = P.epochs then
          Except.ok (stopState P c s epoch grad loss)
        else
          trainAux P c log fuel (epoch + 1) (contState P c s epoch grad loss)

/-- The state at entry of `train`: histories pre-allocated as
`np.zeros(shape=(epochs,))`, `training_theta = []`, and the initial `theta`
and gradient series. -/
def initState (P : Params) (theta0 gradient0 : GKey → ℚ) : TrainState :=
  { theta := theta0, gradient := gradient0,
    loss := List.replicate P.epochs 0, error := List.replicate P.epochs 0,
    training_theta := [], updates := 0 }

/-- Embedding of `model.train()`. -/
def train (P : Params) (c : Circuit) (log : ℚ → ℚ)
    (theta0 gradient0 : GKey → ℚ) : Except String TrainState :=
  trainAux P c log P.epochs 0 (initState P theta0 gradient0)

/-- Embedding of `model.create_gradient`.  `circuitEmpty` models the
`self._circuit_is_empty()` precondition of the `qcircuit` collaborator
(modelled from the spec: a fatal error when the circuit was never generated);
`gradient` is the current `self.gradient` attribute (`none` = Python `None`).
On success the gradient series exists with every key at zero. -/
def create_gradient (circuitEmpty : Bool) (gradient : Option (GKey → ℚ)) :
    Except String (Option (GKey → ℚ)) :=
  if circuitEmpty then
    Except.error ("The quantum circuit for the GRN model is empty")
  else
    match gradient with
    | some _ =>
      Except.error ("The quantum circuit for GRN model has gradients initialized")
    | none => Except.ok (some (fun _ => 0))

/-- The header-building loop of `export_training_theta`: starting from
`header = None`, each key appends `","` to a non-`None` accumulator and then
`control ++ "-" ++ target`. -/
def headerFold (acc : Option String) (edge : GKey) : Option String :=
  let h := match acc with
    | some s => s ++ ","
    | none => ""
  some (h ++ edge.1 ++ "-" ++ edge.2)

/-- The header of the exported file, as the source builds it from
`self.theta.index`. -/
def buildHeader (index : List GKey) : Option String := index.foldl headerFold none

/-- Python slicing `a[::s]` for `s ≥ 1`: every `s`-th element, starting at 0. -/
def strideSlice {α : Type} : List α → ℕ → List α
  | [], _ => []
  | x :: xs, s => x :: strideSlice (xs.drop (s - 1)) s
termination_by l _ => l.length
decreasing_by
  simp_wf
  omega

/-- One exported data row: the snapshot `theta` read off in the fixed order of
the key index (the column order of `np.array(training_theta)`). -/
def thetaRow (index : List GKey) (theta : GKey → ℚ) : List ℚ := index.map theta

/-- `np.array(training_theta)`: the snapshot list materialized as a table whose
columns follow the key index. -/
def materialize (index : List GKey) (traj : List (GKey → ℚ)) : List (List ℚ) :=
  traj.map (thetaRow index)

/-- Embedding of `model.export_training_theta(filename, sample)`.  File I/O is
an external collaborator: the function returns the header string handed to
`np.savetxt` and the sampled rows `training_theta[::sample]` it writes.  When
`save_theta` is false it raises `AttributeError` and writes nothing. -/
def export_training_theta (save_theta : Bool) (thetaIndex : List GKey)
    (training_theta : List (List ℚ)) (sample : ℕ) :
    Except String (Option String × List (List ℚ)) :=
  if save_theta then
    Except.ok (buildHeader thetaIndex, strideSlice training_theta sample)
  else
    Except.error ("The attribute save_theta is False")

/-- The spec-side reading of the export header: the keys formatted as
`"<control>-<target>"`, joined by commas. -/
def commaJoinKeys : List GKey → String
  | [] => ""
  | e :: t => t.foldl (fun acc e2 => acc ++ "," ++ e2.1 ++ "-" ++ e2.2)
      (e.1 ++ "-" ++ e.2)

/-- Concrete witness configuration: one gene, no edges, two epochs, trajectory
capture on, loss threshold 0 so the threshold never fires strictly. -/
def wP : Params :=
  { ncells := 1, p_obs := [1], epochs := 2, lr := 1, method := "kl-divergence",
    train_encoder := false, loss_threshold := 0, save_theta := true,
    genes := ["a"], edges := [] }

/-- Concrete witness circuit: constant outputs. -/
def wC : Circuit :=
  { outputProbabilities := fun _ => [1], outputState := fun _ => [1],
    derivatives := fun _ _ => [0] }

/-- Witness model of `np.log` (only `log 1 = 0` is ever needed). -/
def wLog : ℚ → ℚ := fun _ => 0

/-- Witness initial parameter and gradient series. -/
def wTheta : GKey → ℚ := fun _ => 0

/-- The witness training run. -/
def wRun : Except String TrainState := train wP wC wLog wTheta wTheta

/-- The state the witness run terminates in. -/
def wFinal : TrainState :=
  stopState wP wC (contState wP wC (initState wP wTheta wTheta) 0 wTheta 0) 1
    wTheta 0

/-- The spec's example configuration for method "difference": 3 genes
(8 states), `ncells = 100`, uniform `p_obs`, `epochs = 5`,
`learning_rate = 0.1`, default loss threshold `1e-6 * 2^3`. -/
def exP : Params :=
  { ncells := 100, p_obs := List.replicate 8 (1/8), epochs := 5, lr := 1/10,
    method := "difference", train_encoder := false,
    loss_threshold := 8/1000000, save_theta := false,
    genes := ["g1", "g2", "g3"],
    edges := [("g1", "g2"), ("g1", "g3"), ("g2", "g3")] }

/-- Concrete circuit for the spec's example configuration. -/
def exC : Circuit :=
  { outputProbabilities := fun _ => List.replicate 8 (1/8),
    outputState := fun _ => List.replicate 8 0,
    derivatives := fun _ _ => List.replicate 8 0 }

/-- Projection used by concrete witnesses: is the run a normal return? -/
def isOkB (e : Except String TrainState) : Bool :=
  match e with
  | Except.ok _ => true
  | Except.error _ => false

/-- Projection used by concrete witnesses: the error message, when any. -/
def errOf (e : Except String TrainState) : Option String :=
  match e with
  | Except.ok _ => none
  | Except.error m => some m

/-- Projection used by concrete witnesses: length of the recorded loss
history (0 for a failed run). -/
def lossLenOf (e : Except String TrainState) : ℕ :=
  match e with
  | Except.ok r => r.loss.length
  | Except.error _ => 0

/-- Projection used by concrete witnesses: the ghost update counter. -/
def updatesOf (e : Except String TrainState) : ℕ :=
  match e with
  | Except.ok r => r.updates
  | Except.error _ => 0

section SumLemmas

/-- Scaling a vector scales its sum. -/
theorem sum_map_mul_left (c : ℚ) (l : List ℚ) :
    (l.map (fun x => c * x)).sum = c * l.sum := by
  induction l with
  | nil => simp
  | cons x t ih => simp [ih]; ring

/-- Summing an affine image of a vector, divided by a common denominator. -/
theorem sum_map_affine_div (a c : ℚ) (l : List ℚ) :
    (l.map (fun x => (a * x + 1) / c)).sum = (a * l.sum + (l.length : ℚ)) / c := by
  induction l with
  | nil => simp
  | cons x t ih =>
    simp only [List.map_cons, List.sum_cons, List.length_cons, ih, div_add_div_same]
    push_cast
    ring_nf

end SumLemmas

/-- C4: for every probability vector `p` (entries non-negative, summing to 1)
and every count `n > 0`, `_laplace_smooth p n` returns a vector summing to 1
with every entry strictly positive that preserves the ordering of the input
bins, together with the smoothed total `n + dim p`. -/
theorem laplace_smooth_spec (p : Dist) (n : ℕ)
    (hnn : ∀ x ∈ p, 0 ≤ x) (hsum : p.sum = 1) (hn : 0 < n) :
    ((_laplace_smooth p n).1).sum = 1 ∧
    (∀ x ∈ (_laplace_smooth p n).1, 0 < x) ∧
    (∀ (i j : ℕ) (pi pj : ℚ), p[i]? = some pi → p[j]? = some pj → pi ≤ pj →
      ∃ qi qj : ℚ, ((_laplace_smooth p n).1)[i]? = some qi ∧
        ((_laplace_smooth p n).1)[j]? = some qj ∧ qi ≤ qj) ∧
    (_laplace_smooth p n).2 = (n : ℚ) + (p.length : ℚ) := by
  have hfst : (_laplace_smooth p n).1 =
      p.map (fun x => ((n : ℚ) * x + 1) / ((n : ℚ) + (p.length : ℚ))) := by
    simp [_laplace_smooth, List.map_map, Function.comp, sum_map_mul_left, hsum]
  have hsnd : (_laplace_smooth p n).2 = (n : ℚ) + (p.length : ℚ) := by
    simp [_laplace_smooth, sum_map_mul_left, hsum]
  have hn1 : (1 : ℚ) ≤ (n : ℚ) := by exact_mod_cast hn
  have hlen : (0 : ℚ) ≤ (p.length : ℚ) := by positivity
  have hpos : (0 : ℚ) < (n : ℚ) + (p.length : ℚ) := by linarith
  refine ⟨?_, ?_, ?_, hsnd⟩
  · rw [hfst, sum_map_affine_div, hsum, mul_one, div_self (ne_of_gt hpos)]
  · intro x hx
    rw [hfst] at hx
    obtain ⟨y, hy, rfl⟩ := List.mem_map.mp hx
    have h0y : 0 ≤ y := hnn y hy
    have : (0 : ℚ) < (n : ℚ) * y + 1 := by nlinarith
    exact div_pos this hpos
  · intro i j pi pj hi hj hle
    refine ⟨((n : ℚ) * pi + 1) / ((n : ℚ) + (p.length : ℚ)),
            ((n : ℚ) * pj + 1) / ((n : ℚ) + (p.length : ℚ)), ?_, ?_, ?_⟩
    · rw [hfst, List.getElem?_map, hi]; rfl
    · rw [hfst, List.getElem?_map, hj]; rfl
    · have hnum : (n : ℚ) * pi + 1 ≤ (n : ℚ) * pj + 1 := by nlinarith
      exact div_le_div_of_nonneg_right hnum hpos.le

/-- C4 witness at `p = [1]`, `n = 2`. -/
theorem laplace_smooth_spec_witness :
    (∀ x ∈ ([1] : Dist), 0 ≤ x) ∧ ([1] : Dist).sum = 1 ∧
    0 < 2 ∧
    (_laplace_smooth [1] 2).2 = ((2 : ℕ) : ℚ) + ((([1] : Dist).length : ℕ) : ℚ) :=
  ⟨by simp, by simp, by decide,
    (laplace_smooth_spec [1] 2 (by simp) (by simp) (by decide)).2.2.2⟩

/-- The "difference" loss of a vector against itself vanishes. -/
theorem sum_sq_sub_self (p : Dist) : ((ewSub p p).map (fun x => x ^ 2)).sum = 0 := by
  induction p with
  | nil => simp [ewSub]
  | cons x t ih =>
    have hc : ewSub (x :: t) (x :: t) = (x - x) :: ewSub t t := rfl
    rw [hc, List.map_cons, List.sum_cons, ih, sub_self]
    simp

/-- The KL sum of a strictly positive vector against itself vanishes when the
logarithm sends 1 to 0. -/
theorem sum_kl_self (log : ℚ → ℚ) (hlog : log 1 = 0) (p : Dist)
    (hp : ∀ x ∈ p, 0 < x) : (ewMul p ((ewDiv p p).map log)).sum = 0 := by
  induction p with
  | nil => simp [ewMul, ewDiv]
  | cons x t ih =>
    have hx : x ≠ 0 := ne_of_gt (hp x (by simp))
    have ht := ih (fun y hy => hp y (by simp [hy]))
    have hc : ewDiv (x :: t) (x :: t) = (x / x) :: ewDiv t t := rfl
    have hm : ewMul (x :: t) (((x / x) :: ewDiv t t).map log) =
        x * log (x / x) :: ewMul t ((ewDiv t t).map log) := rfl
    rw [hc, hm, List.sum_cons, ht, div_self hx, hlog, mul_zero, add_zero]

/-- C7: for every vector `p` with all entries strictly positive,
`loss(p, p, "difference") = 0` and `loss(p, p, "kl-divergence") = 0`
(the latter for any model of `np.log` sending 1 to 0). -/
theorem loss_identity_zero (log : ℚ → ℚ) (p : Dist) (hlog : log 1 = 0)
    (hp : ∀ x ∈ p, 0 < x) :
    _loss_function log p p "difference" = Except.ok 0 ∧
    _loss_function log p p "kl-divergence" = Except.ok 0 := by
  constructor
  · simp [_loss_function, sum_sq_sub_self]
  · simp [_loss_function, sum_kl_self log hlog p hp]

/-- C7 witness at `p = [1]` with `log := fun _ => 0`. -/
theorem loss_identity_zero_witness :
    (fun _ : ℚ => (0 : ℚ)) 1 = 0 ∧ (∀ x ∈ ([1] : Dist), 0 < x) ∧
    _loss_function (fun _ => 0) [1] [1] "difference" = Except.ok 0 ∧
    _loss_function (fun _ => 0) [1] [1] "kl-divergence" = Except.ok 0 := by
  have h := loss_identity_zero (fun _ => 0) [1] rfl (by simp)
  exact ⟨rfl, by simp, h.1, h.2⟩

/-- C6: every method other than "kl-divergence" and "difference" makes
`_loss_function` fail, and every method other than "kl-divergence" makes
`compute_gradient` fail with an error naming the offending method. -/
theorem unsupported_method_errors (log : ℚ → ℚ) (p_out p_obs v : Dist)
    (method : String) (te : Bool) (genes : List Gene) (edges : List GKey)
    (ncells : ℕ) (dv : GKey → Dist) (gradient : GKey → ℚ) :
    (method ≠ "kl-divergence" → method ≠ "difference" →
      _loss_function log p_out p_obs method =
        Except.error ("No method to compute the loss function")) ∧
    (method ≠ "kl-divergence" →
      compute_gradient log method te genes edges ncells p_obs p_out v (some dv)
        gradient = Except.error (gradientUnsupportedMsg method)) := by
  constructor
  · intro h1 h2
    simp [_loss_function, h1, h2]
  · intro h1
    simp [compute_gradient, h1]

/-- C6 witness at `method = "foo"`. -/
theorem unsupported_method_errors_witness :
    ("foo" ≠ "kl-divergence") ∧ ("foo" ≠ "difference") ∧
    _loss_function (fun _ => 0) [] [] "foo" =
      Except.error ("No method to compute the loss function") ∧
    compute_gradient (fun _ => 0) "foo" false [] [] 1 [] [] []
      (some (fun _ => [])) (fun _ => 0) =
      Except.error (gradientUnsupportedMsg "foo") := by
  have h := unsupported_method_errors (fun _ => 0) [] [] [] "foo" false [] [] 1
    (fun _ => []) (fun _ => 0)
  exact ⟨by decide, by decide, h.1 (by decide) (by decide), h.2 (by decide)⟩

/-- Every entry of a `derLossTerm` column vanishes when the derivative column
is all zeros. -/
theorem derLossTerm_all_zero (logv v ds : Dist) (scale : ℚ)
    (h : ∀ x ∈ ds, x = 0) : ∀ y ∈ derLossTerm logv v ds scale, y = 0 := by
  induction logv generalizing v ds with
  | nil => intro y hy; simp [derLossTerm] at hy
  | cons l ls ih =>
    intro y hy
    cases v with
    | nil => simp [derLossTerm] at hy
    | cons x xs =>
      cases ds with
      | nil => simp [derLossTerm] at hy
      | cons d dt =>
        simp only [derLossTerm, List.zipWith_cons_cons, List.mem_cons] at hy
        rcases hy with h1 | h2
        · rw [h1, h d (by simp)]; ring
        · exact ih xs dt (fun z hz => h z (by simp [hz])) y h2

/-- A fold of zero-valued `Function.update`s over the all-zero series yields
the all-zero series. -/
theorem foldl_update_zero {β : Type} (l : List β) (key : β → GKey) (val : β → ℚ)
    (g : GKey → ℚ) (hg : g = fun _ => 0) (hval : ∀ x ∈ l, val x = 0) :
    l.foldl (fun a x => Function.update a (key x) (val x)) g = fun _ => 0 := by
  induction l generalizing g with
  | nil => simpa using hg
  | cons x t ih =>
    simp only [List.foldl_cons]
    apply ih
    · rw [hg, hval x (by simp)]
      funext k
      simp [Function.update_apply]
    · intro y hy
      exact hval y (by simp [hy])

/-- Unfolding of the "kl-divergence" branch of `compute_gradient`: the
self-loop loop (when `train_encoder`) and then the edge loop write the per-key
gradient values over the incoming gradient series. -/
theorem compute_gradient_kl (log : ℚ → ℚ) (te : Bool) (genes : List Gene)
    (edges : List GKey) (ncells : ℕ) (p_obs p_out v : Dist)
    (dv : GKey → Dist) (gradient : GKey → ℚ) :
    compute_gradient log "kl-divergence" te genes edges ncells p_obs p_out v
        (some dv) gradient =
      Except.ok (edges.foldl (fun g e =>
          Function.update g e (klGradVal log ncells p_obs p_out v dv e))
        (if te then
          genes.foldl (fun g gene =>
            Function.update g (gene, gene)
              (klGradVal log ncells p_obs p_out v dv (gene, gene))) gradient
         else gradient)) := rfl

/-- C5: for method "kl-divergence", gradient assembly from a derivative table
whose entries are all zeros produces the all-zero gradient series, for any
state vector, any `ncells > 0` and any distributions (starting from the
all-zero gradient that `create_gradient` populates). -/
theorem zero_derivative_zero_gradient (log : ℚ → ℚ) (te : Bool)
    (genes : List Gene) (edges : List GKey) (ncells : ℕ)
    (p_obs p_out v : Dist) (dv : GKey → Dist) (gradient : GKey → ℚ)
    (hn : 0 < ncells) (hdv : ∀ k, ∀ x ∈ dv k, x = 0)
    (hg : ∀ k, gradient k = 0) :
    compute_gradient log "kl-divergence" te genes edges ncells p_obs p_out v
      (some dv) gradient = Except.ok (fun _ => 0) := by
  have hg0 : gradient = fun _ => 0 := funext hg
  rw [compute_gradient_kl]
  congr 1
  refine foldl_update_zero edges (fun e => e)
    (fun e => klGradVal log ncells p_obs p_out v dv e) _ ?_ ?_
  · cases te with
    | false => simpa using hg0
    | true =>
      simp only [if_true]
      refine foldl_update_zero genes (fun gene => (gene, gene))
        (fun gene => klGradVal log ncells p_obs p_out v dv (gene, gene)) _ hg0 ?_
      intro gene _
      exact List.sum_eq_zero (derLossTerm_all_zero _ _ _ _ (hdv (gene, gene)))
  · intro e _
    exact List.sum_eq_zero (derLossTerm_all_zero _ _ _ _ (hdv e))

/-- C5 witness: one gene, one edge, encoder training on, all-zero derivative
columns. -/
theorem zero_derivative_zero_gradient_witness :
    0 < 1 ∧
    compute_gradient (fun _ => 0) "kl-divergence" true ["a"] [("a", "a")] 1
      [1] [1] [1] (some (fun _ => [0, 0])) (fun _ => 0) = Except.ok (fun _ => 0) :=
  ⟨by decide,
    zero_derivative_zero_gradient (fun _ => 0) true ["a"] [("a", "a")] 1
      [1] [1] [1] (fun _ => [0, 0]) (fun _ => 0) (by decide)
      (fun _ => by simp) (fun _ => rfl)⟩

section TrainLemmas

variable (P : Params) (c : Circuit) (s : TrainState) (epoch : ℕ)
variable (grad : GKey → ℚ) (loss : ℚ)

theorem recordEpoch_theta : (recordEpoch P c s epoch grad loss).theta = s.theta := by
  simp only [recordEpoch]
  split <;> rfl

theorem recordEpoch_gradient : (recordEpoch P c s epoch grad loss).gradient = grad := by
  simp only [recordEpoch]
  split <;> rfl

theorem recordEpoch_loss :
    (recordEpoch P c s epoch grad loss).loss = s.loss.set epoch loss := by
  simp only [recordEpoch]
  split <;> rfl

theorem recordEpoch_error :
    (recordEpoch P c s epoch grad loss).error =
      s.error.set epoch (_compute_error (c.outputProbabilities s.theta) P.p_obs) := by
  simp only [recordEpoch]
  split <;> rfl

theorem recordEpoch_updates : (recordEpoch P c s epoch grad loss).updates = s.updates := by
  simp only [recordEpoch]
  split <;> rfl

theorem recordEpoch_training_theta :
    (recordEpoch P c s epoch grad loss).training_theta =
      if P.save_theta then s.training_theta ++ [s.theta] else s.training_theta := by
  simp only [recordEpoch]
  split <;> rfl

theorem stopState_theta : (stopState P c s epoch grad loss).theta = s.theta :=
  recordEpoch_theta P c s epoch grad loss

theorem stopState_updates : (stopState P c s epoch grad loss).updates = s.updates :=
  recordEpoch_updates P c s epoch grad loss

theorem stopState_loss :
    (stopState P c s epoch grad loss).loss =
      (s.loss.set epoch loss).take (epoch + 1) := by
  show (recordEpoch P c s epoch grad loss).loss.take (epoch + 1) = _
  rw [recordEpoch_loss]

theorem stopState_error :
    (stopState P c s epoch grad loss).error =
      (s.error.set epoch
        (_compute_error (c.outputProbabilities s.theta) P.p_obs)).take (epoch + 1) := by
  show (recordEpoch P c s epoch grad loss).error.take (epoch + 1) = _
  rw [recordEpoch_error]

theorem stopState_training_theta :
    (stopState P c s epoch grad loss).training_theta =
      if P.save_theta then s.training_theta ++ [s.theta] else s.training_theta :=
  recordEpoch_training_theta P c s epoch grad loss

theorem contState_theta :
    (contState P c s epoch grad loss).theta =
      fun k => s.theta k - P.lr * grad k := by
  show (fun k => (recordEpoch P c s epoch grad loss).theta k -
    P.lr * (recordEpoch P c s epoch grad loss).gradient k) = _
  rw [recordEpoch_theta, recordEpoch_gradient]

theorem contState_gradient : (contState P c s epoch grad loss).gradient = grad :=
  recordEpoch_gradient P c s epoch grad loss

theorem contState_loss :
    (contState P c s epoch grad loss).loss = s.loss.set epoch loss :=
  recordEpoch_loss P c s epoch grad loss

theorem contState_error :
    (contState P c s epoch grad loss).error =
      s.error.set epoch (_compute_error (c.outputProbabilities s.theta) P.p_obs) :=
  recordEpoch_error P c s epoch grad loss

theorem contState_updates :
    (contState P c s epoch grad loss).updates = s.updates + 1 := by
  show (recordEpoch P c s epoch grad loss).updates + 1 = _
  rw [recordEpoch_updates]

theorem contState_training_theta :
    (contState P c s epoch grad loss).training_theta =
      if P.save_theta then s.training_theta ++ [s.theta] else s.training_theta :=
  recordEpoch_training_theta P c s epoch grad loss

end TrainLemmas

section TrainStep

variable (P : Params) (c : Circuit) (log : ℚ → ℚ) (fuel epoch : ℕ)
variable (s : TrainState)

/-- One loop iteration propagates a gradient-assembly failure. -/
theorem trainAux_error_grad (e : String)
    (hg : compute_gradient log P.method P.train_encoder P.genes P.edges
        P.ncells P.p_obs (c.outputProbabilities s.theta) (c.outputState s.theta)
        (some (c.derivatives s.theta)) s.gradient = Except.error e) :
    trainAux P c log (fuel + 1) epoch s = Except.error e := by
  simp only [trainAux, hg]

/-- One loop iteration propagates a loss-evaluation failure. -/
theorem trainAux_error_loss (grad : GKey → ℚ) (e : String)
    (hg : compute_gradient log P.method P.train_encoder P.genes P.edges
        P.ncells P.p_obs (c.outputProbabilities s.theta) (c.outputState s.theta)
        (some (c.derivatives s.theta)) s.gradient = Except.ok grad)
    (hl : _loss_function log
        (_laplace_smooth (c.outputProbabilities s.theta) P.ncells).1
        (_laplace_smooth P.p_obs P.ncells).1 P.method = Except.error e) :
    trainAux P c log (fuel + 1) epoch s = Except.error e := by
  simp only [trainAux, hg, hl]

/-- One loop iteration that fires the stop condition returns the truncated
terminal state without updating the parameters. -/
theorem trainAux_stop_eq (grad : GKey → ℚ) (loss : ℚ)
    (hg : compute_gradient log P.method P.train_encoder P.genes P.edges
        P.ncells P.p_obs (c.outputProbabilities s.theta) (c.outputState s.theta)
        (some (c.derivatives s.theta)) s.gradient = Except.ok grad)
    (hl : _loss_function log
        (_laplace_smooth (c.outputProbabilities s.theta) P.ncells).1
        (_laplace_smooth P.p_obs P.ncells).1 P.method = Except.ok loss)
    (hcond : P.loss_threshold > loss ∨ epoch + 1 = P.epochs) :
    trainAux P c log (fuel + 1) epoch s =
      Except.ok (stopState P c s epoch grad loss) := by
  simp only [trainAux, hg, hl]
  rw [if_pos hcond]

/-- One loop iteration that does not fire the stop condition recurses on the
updated state. -/
theorem trainAux_continue_eq (grad : GKey → ℚ) (loss : ℚ)
    (hg : compute_gradient log P.method P.train_encoder P.genes P.edges
        P.ncells P.p_obs (c.outputProbabilities s.theta) (c.outputState s.theta)
        (some (c.derivatives s.theta)) s.gradient = Except.ok grad)
    (hl : _loss_function log
        (_laplace_smooth (c.outputProbabilities s.theta) P.ncells).1
        (_laplace_smooth P.p_obs P.ncells).1 P.method = Except.ok loss)
    (h1 : ¬ P.loss_threshold > loss) (h2 : ¬ epoch + 1 = P.epochs) :
    trainAux P c log (fuel + 1) epoch s =
      trainAux P c log fuel (epoch + 1) (contState P c s epoch grad loss) := by
  simp only [trainAux, hg, hl]
  rw [if_neg (not_or.mpr ⟨h1, h2⟩)]

end TrainStep

/-- Master invariants of the training loop: bounds and truncation of the
histories, the ghost update counter, the first-crossing characterisation of
the stop condition, and the snapshot trajectory. -/
theorem trainAux_master (P : Params) (c : Circuit) (log : ℚ → ℚ) :
    ∀ (fuel epoch : ℕ) (s r : TrainState),
      fuel + epoch = P.epochs → 0 < fuel →
      s.loss.length = P.epochs → s.error.length = P.epochs →
      trainAux P c log fuel epoch s = Except.ok r →
      (epoch < r.loss.length ∧ r.loss.length ≤ P.epochs) ∧
      r.error.length = r.loss.length ∧
      r.updates = s.updates + (r.loss.length - 1 - epoch) ∧
      (∀ j, j < epoch → r.loss[j]? = s.loss[j]?) ∧
      (∀ j x, epoch ≤ j → j + 1 < r.loss.length → r.loss[j]? = some x →
        ¬ x < P.loss_threshold) ∧
      (r.loss.length < P.epochs → ∀ x, r.loss[r.loss.length - 1]? = some x →
        x < P.loss_threshold) ∧
      (P.save_theta = true → ∃ ext, r.training_theta = s.training_theta ++ ext ∧
        ext.head? = some s.theta ∧ ext.getLast? = some r.theta ∧
        ext.length = r.loss.length - epoch) := by
  intro fuel
  induction fuel with
  | zero =>
    intro epoch s r _ hfuel
    exact absurd hfuel (lt_irrefl 0)
  | succ fuel ih =>
    intro epoch s r hinv hfuel hlen herr hrun
    have hepoch : epoch + 1 ≤ P.epochs := by omega
    cases hcg : compute_gradient log P.method P.train_encoder P.genes P.edges
        P.ncells P.p_obs (c.outputProbabilities s.theta) (c.outputState s.theta)
        (some (c.derivatives s.theta)) s.gradient with
    | error e =>
      rw [trainAux_error_grad P c log fuel epoch s e hcg] at hrun
      exact Except.noConfusion hrun
    | ok grad =>
      cases hcl : _loss_function log
          (_laplace_smooth (c.outputProbabilities s.theta) P.ncells).1
          (_laplace_smooth P.p_obs P.ncells).1 P.method with
      | error e =>
        rw [trainAux_error_loss P c log fuel epoch s grad e hcg hcl] at hrun
        exact Except.noConfusion hrun
      | ok loss =>
        by_cases hcond : P.loss_threshold > loss ∨ epoch + 1 = P.epochs
        · -- stop at this epoch
          rw [trainAux_stop_eq P c log fuel epoch s grad loss hcg hcl hcond] at hrun
          obtain rfl : stopState P c s epoch grad loss = r := Except.ok.inj hrun
          have hL : (stopState P c s epoch grad loss).loss =
              (s.loss.set epoch loss).take (epoch + 1) := stopState_loss ..
          have hLlen : (stopState P c s epoch grad loss).loss.length = epoch + 1 := by
            rw [hL]
            simp [List.length_take, List.length_set, hlen]
            omega
          have hElen : (stopState P c s epoch grad loss).error.length = epoch + 1 := by
            rw [stopState_error]
            simp [List.length_take, List.length_set, herr]
            omega
          refine ⟨⟨by omega, by omega⟩, by omega, ?_, ?_, ?_, ?_, ?_⟩
          · rw [stopState_updates, hLlen]
            omega
          · intro j hj
            rw [hL, List.getElem?_take_of_lt (by omega),
              List.getElem?_set_ne (by omega)]
          · intro j x h1 h2 _
            rw [hLlen] at h2
            omega
          · intro hlt x hx
            rw [hLlen] at hlt
            have hterm : ¬ epoch + 1 = P.epochs := by omega
            have hthr : P.loss_threshold > loss := hcond.resolve_right hterm
            rw [hLlen] at hx
            have hidx : epoch + 1 - 1 = epoch := by omega
            rw [hidx, hL, List.getElem?_take_of_lt (by omega),
              List.getElem?_set_eq_of_lt loss (by omega)] at hx
            cases hx
            exact hthr
          · intro hsave
            refine ⟨[s.theta], ?_, rfl, ?_, ?_⟩
            · rw [stopState_training_theta, if_pos hsave]
            · rw [stopState_theta]
              rfl
            · rw [hLlen]
              simp only [List.length_cons, List.length_nil]
              omega
        · -- continue to the next epoch
          rw [not_or] at hcond
          obtain ⟨h1, h2⟩ := hcond
          rw [trainAux_continue_eq P c log fuel epoch s grad loss hcg hcl h1 h2] at hrun
          have hfuel2 : 0 < fuel := by omega
          have hlen2 : (contState P c s epoch grad loss).loss.length = P.epochs := by
            rw [contState_loss]
            simp [List.length_set, hlen]
          have herr2 : (contState P c s epoch grad loss).error.length = P.epochs := by
            rw [contState_error]
            simp [List.length_set, herr]
          obtain ⟨⟨hA1a, hA1b⟩, hA2, hA3, hA4, hA5, hA6, hA7⟩ :=
            ih (epoch + 1) (contState P c s epoch grad loss) r (by omega) hfuel2
              hlen2 herr2 hrun
          have hpre : ∀ j, j < epoch + 1 → r.loss[j]? = (s.loss.set epoch loss)[j]? := by
            intro j hj
            rw [hA4 j hj, contState_loss]
          refine ⟨⟨by omega, hA1b⟩, hA2, ?_, ?_, ?_, hA6, ?_⟩
          · rw [hA3, contState_updates]
            omega
          · intro j hj
            rw [hpre j (by omega), List.getElem?_set_ne (by omega)]
          · intro j x hje hjl hx
            rcases Nat.lt_or_ge j (epoch + 1) with hj | hj
            · have hje2 : j = epoch := by omega
              subst hje2
              rw [hpre j (by omega),
                List.getElem?_set_eq_of_lt loss (by omega)] at hx
              cases hx
              exact h1
            · exact hA5 j x hj hjl hx
          · intro hsave
            obtain ⟨ext, hext, hhead, hlast, hextlen⟩ := hA7 hsave
            have htraj : (contState P c s epoch grad loss).training_theta =
                s.training_theta ++ [s.theta] := by
              rw [contState_training_theta, if_pos hsave]
            have hne : ext ≠ [] := by
              intro hnil
              rw [hnil] at hhead
              exact Option.noConfusion hhead
            obtain ⟨y, ys, rfl⟩ := List.exists_cons_of_ne_nil hne
            refine ⟨s.theta :: y :: ys, ?_, rfl, ?_, ?_⟩
            · rw [hext, htraj]
              simp
            · rw [List.getLast?_cons_cons]
              exact hlast
            · simp only [List.length_cons] at hextlen ⊢
              omega

/-- C9: once the gradient series is populated (as the constructor does via its
single `create_gradient` call), any further `create_gradient` call fails with
the initialized-gradients error and produces no new series, while the one
creation from the empty state populates every key at zero. -/
theorem create_gradient_once (g : GKey → ℚ) (grad0 : Option (GKey → ℚ))
    (hg : grad0 = some g) :
    create_gradient false grad0 =
      Except.error ("The quantum circuit for GRN model has gradients initialized") ∧
    create_gradient false none = Except.ok (some (fun _ => 0)) := by
  subst hg
  exact ⟨rfl, rfl⟩

/-- C9 witness at the zero gradient series. -/
theorem create_gradient_once_witness :
    create_gradient false (some (fun _ => (0 : ℚ))) =
      Except.error ("The quantum circuit for GRN model has gradients initialized") ∧
    create_gradient false none = Except.ok (some (fun _ => 0)) :=
  create_gradient_once (fun _ => 0) (some (fun _ => 0)) rfl

/-- The elementwise product of a vector with an all-zero column sums to 0. -/
theorem sum_ewMul_map_zero (l d : Dist) :
    (ewMul l (d.map (fun _ => (0 : ℚ)))).sum = 0 := by
  induction l generalizing d with
  | nil => simp [ewMul]
  | cons x t ih =>
    cases d with
    | nil => simp [ewMul]
    | cons y u =>
      have hc : ewMul (x :: t) ((y :: u).map (fun _ => (0 : ℚ))) =
          x * 0 :: ewMul t (u.map (fun _ => 0)) := rfl
      rw [hc, List.sum_cons, ih u, mul_zero, add_zero]

/-- Under the constant-zero model of `np.log`, the kl-divergence loss
evaluates to 0 on any pair of vectors. -/
theorem loss_const_zero_log (p q : Dist) :
    _loss_function (fun _ => (0 : ℚ)) p q "kl-divergence" = Except.ok 0 := by
  unfold _loss_function
  rw [if_pos rfl, sum_ewMul_map_zero p (ewDiv p q)]

/-- First step of the witness run: epoch 1 records loss 0, does not stop
(threshold 0 is not strictly above loss 0), and updates the parameters. -/
theorem wRun_step0 :
    wRun = trainAux wP wC wLog 1 1
      (contState wP wC (initState wP wTheta wTheta) 0 wTheta 0) :=
  trainAux_continue_eq wP wC wLog 1 0 (initState wP wTheta wTheta) wTheta 0 rfl
    (loss_const_zero_log _ _) (lt_irrefl 0) (by decide)

/-- Second step of the witness run: epoch 2 is the last epoch, so the run
stops with truncated histories. -/
theorem wRun_step1 :
    trainAux wP wC wLog 1 1
        (contState wP wC (initState wP wTheta wTheta) 0 wTheta 0) =
      Except.ok wFinal :=
  trainAux_stop_eq wP wC wLog 0 1
    (contState wP wC (initState wP wTheta wTheta) 0 wTheta 0) wTheta 0 rfl
    (loss_const_zero_log _ _) (Or.inr rfl)

/-- The witness run terminates normally in `wFinal`. -/
theorem wRun_eq : wRun = Except.ok wFinal := wRun_step0.trans wRun_step1

/-- The witness run records exactly two loss entries. -/
theorem wFinal_loss_length : wFinal.loss.length = 2 := by
  show (stopState wP wC (contState wP wC (initState wP wTheta wTheta) 0 wTheta 0)
    1 wTheta 0).loss.length = 2
  rw [stopState_loss, contState_loss]
  simp [initState, List.length_take, List.length_set, List.length_replicate, wP]

/-- C1: a terminating run of `train` with epoch budget at least 1 stops with
loss and error histories of equal length `k`, `1 ≤ k ≤ epochs`; exactly
`k - 1` parameter updates were executed (none at the terminal epoch, and at
most `epochs - 1` in total); no recorded loss before the terminal epoch lies
strictly below the threshold; if the run stopped before exhausting the budget
then the terminal recorded loss lies strictly below the threshold; and
`epochs = 1` gives histories of length exactly 1 with zero updates. -/
theorem train_stopping (P : Params) (c : Circuit) (log : ℚ → ℚ)
    (theta0 gradient0 : GKey → ℚ) (r : TrainState)
    (he : 1 ≤ P.epochs) (hrun : train P c log theta0 gradient0 = Except.ok r) :
    (1 ≤ r.loss.length ∧ r.loss.length ≤ P.epochs ∧
      r.error.length = r.loss.length) ∧
    r.updates + 1 = r.loss.length ∧
    (∀ j x, j + 1 < r.loss.length → r.loss[j]? = some x →
      ¬ x < P.loss_threshold) ∧
    (r.loss.length < P.epochs → ∀ x, r.loss[r.loss.length - 1]? = some x →
      x < P.loss_threshold) ∧
    (P.epochs = 1 → r.loss.length = 1 ∧ r.updates = 0) := by
  obtain ⟨⟨h1a, h1b⟩, h2, h3, _, h5, h6, _⟩ :=
    trainAux_master P c log P.epochs 0 (initState P theta0 gradient0) r
      (by omega) (by omega) (by simp [initState]) (by simp [initState]) hrun
  have h3' : r.updates = r.loss.length - 1 := by simpa [initState] using h3
  refine ⟨⟨by omega, h1b, h2⟩, by omega, ?_, h6, ?_⟩
  · intro j x hj hx
    exact h5 j x (by omega) hj hx
  · intro h1
    exact ⟨by omega, by omega⟩

/-- C1 witness: the concrete two-epoch run ends with histories of length 2
after exactly one parameter update. -/
theorem train_stopping_witness :
    1 ≤ wP.epochs ∧ lossLenOf wRun = 2 ∧ updatesOf wRun = 1 := by
  have H := train_stopping wP wC wLog wTheta wTheta wFinal (by decide) wRun_eq
  have hlen2 : wFinal.loss.length = 2 := wFinal_loss_length
  refine ⟨by decide, ?_, ?_⟩
  · rw [wRun_eq]
    exact hlen2
  · rw [wRun_eq]
    have h2 := H.2.1
    show wFinal.updates = 1
    omega

/-- C3: on an epoch where the stop condition does not fire, the loop recurses
into the next epoch on a state whose parameter series is
`theta ← theta - lr * gradient` elementwise over every key (keys with zero
gradient keep exactly their prior value), whose stored gradient is the
epoch's gradient; the next iteration re-evaluates the circuit collaborator at
this new `theta` (the regeneration step). -/
theorem train_update_rule (P : Params) (c : Circuit) (log : ℚ → ℚ)
    (fuel epoch : ℕ) (s : TrainState) (grad : GKey → ℚ) (loss : ℚ)
    (hg : compute_gradient log P.method P.train_encoder P.genes P.edges
        P.ncells P.p_obs (c.outputProbabilities s.theta) (c.outputState s.theta)
        (some (c.derivatives s.theta)) s.gradient = Except.ok grad)
    (hl : _loss_function log
        (_laplace_smooth (c.outputProbabilities s.theta) P.ncells).1
        (_laplace_smooth P.p_obs P.ncells).1 P.method = Except.ok loss)
    (hth : ¬ P.loss_threshold > loss) (hterm : ¬ epoch + 1 = P.epochs) :
    ∃ s2 : TrainState,
      trainAux P c log (fuel + 1) epoch s = trainAux P c log fuel (epoch + 1) s2 ∧
      s2.theta = (fun k => s.theta k - P.lr * grad k) ∧
      (∀ k, grad k = 0 → s2.theta k = s.theta k) ∧
      s2.gradient = grad := by
  refine ⟨contState P c s epoch grad loss,
    trainAux_continue_eq P c log fuel epoch s grad loss hg hl hth hterm,
    contState_theta P c s epoch grad loss, ?_, contState_gradient P c s epoch grad loss⟩
  intro k hk
  simp only [contState_theta P c s epoch grad loss, hk, mul_zero, sub_zero]

/-- C3 witness: the first epoch of the concrete run does not stop and
recurses on the updated parameter series. -/
theorem train_update_rule_witness :
    ∃ s2 : TrainState,
      trainAux wP wC wLog 2 0 (initState wP wTheta wTheta) =
        trainAux wP wC wLog 1 1 s2 ∧
      s2.theta = (fun k => (initState wP wTheta wTheta).theta k - wP.lr * wTheta k) ∧
      (∀ k, wTheta k = 0 → s2.theta k = (initState wP wTheta wTheta).theta k) ∧
      s2.gradient = wTheta :=
  train_update_rule wP wC wLog 1 0 (initState wP wTheta wTheta) wTheta 0 rfl
    (loss_const_zero_log _ _) (lt_irrefl 0) (by decide)

/-- C10: with trajectory capture on and at least one epoch, a terminating run
leaves a non-empty snapshot list whose last entry is exactly the terminal
parameter series (the terminal epoch's snapshot is taken before the stop
check and no update follows it) and whose first entry is the parameter series
of epoch 1, i.e. the initial `theta`. -/
theorem train_trajectory (P : Params) (c : Circuit) (log : ℚ → ℚ)
    (theta0 gradient0 : GKey → ℚ) (r : TrainState)
    (hs : P.save_theta = true) (he : 1 ≤ P.epochs)
    (hrun : train P c log theta0 gradient0 = Except.ok r) :
    r.training_theta ≠ [] ∧ r.training_theta.getLast? = some r.theta ∧
    r.training_theta.head? = some theta0 := by
  obtain ⟨_, _, _, _, _, _, h7⟩ :=
    trainAux_master P c log P.epochs 0 (initState P theta0 gradient0) r
      (by omega) (by omega) (by simp [initState]) (by simp [initState]) hrun
  obtain ⟨ext, hext, hhead, hlast, _⟩ := h7 hs
  have hexts : r.training_theta = ext := by simpa [initState] using hext
  refine ⟨?_, ?_, ?_⟩
  · rw [hexts]
    intro hnil
    rw [hnil] at hhead
    exact Option.noConfusion hhead
  · rw [hexts]
    exact hlast
  · rw [hexts]
    exact hhead

/-- C10 witness on the concrete two-epoch run. -/
theorem train_trajectory_witness :
    wP.save_theta = true ∧ 1 ≤ wP.epochs ∧
    wFinal.training_theta ≠ [] ∧
    wFinal.training_theta.getLast? = some wFinal.theta ∧
    wFinal.training_theta.head? = some wTheta := by
  have H := train_trajectory wP wC wLog wTheta wTheta wFinal rfl (by decide) wRun_eq
  exact ⟨rfl, by decide, H.1, H.2.1, H.2.2⟩

/-- The header loop over a non-`None` accumulator is a comma-join fold. -/
theorem foldl_headerFold (t : List GKey) (str : String) :
    t.foldl headerFold (some str) =
      some (t.foldl (fun acc e => acc ++ "," ++ e.1 ++ "-" ++ e.2) str) := by
  induction t generalizing str with
  | nil => rfl
  | cons e t ih =>
    simp only [List.foldl_cons]
    rw [show headerFold (some str) e =
      some (str ++ "," ++ e.1 ++ "-" ++ e.2) from rfl]
    exact ih _

/-- On a non-empty key index the built header is exactly the keys formatted
`"<control>-<target>"` and joined by commas. -/
theorem buildHeader_eq (index : List GKey) (h : index ≠ []) :
    buildHeader index = some (commaJoinKeys index) := by
  cases index with
  | nil => exact absurd rfl h
  | cons e t =>
    show List.foldl headerFold (headerFold none e) t = _
    rw [show headerFold none e = some ("" ++ e.1 ++ "-" ++ e.2) from rfl,
      String.empty_append, foldl_headerFold]
    rfl

/-- Length of Python's `l[::s]` slice: the ceiling of `l.length / s`. -/
theorem strideSlice_length {α : Type} (l : List α) (s : ℕ) (hs : 0 < s) :
    (strideSlice l s).length = (l.length + s - 1) / s := by
  revert hs
  induction l, s using strideSlice.induct with
  | case1 s =>
    intro hs
    simp only [strideSlice, List.length_nil]
    exact (Nat.div_eq_of_lt (by omega)).symm
  | case2 x xs s ih =>
    intro hs
    simp only [strideSlice, List.length_cons]
    rw [ih hs, List.length_drop]
    rcases Nat.lt_or_ge xs.length (s - 1) with h | h
    · have h0 : xs.length - (s - 1) = 0 := Nat.sub_eq_zero_of_le h.le
      have hd : 0 + s - 1 < s := by omega
      rw [h0, Nat.div_eq_of_lt hd]
      have h2 : xs.length + 1 + s - 1 = xs.length + s := by omega
      have hd2 : xs.length < s := by omega
      rw [h2, Nat.add_div_right _ hs, Nat.div_eq_of_lt hd2]
    · have h2 : xs.length - (s - 1) + s - 1 = xs.length := by omega
      have h3 : xs.length + 1 + s - 1 = xs.length + s := by omega
      rw [h2, h3, Nat.add_div_right _ hs]

/-- C8: requesting trajectory export with `save_theta = False` fails with the
not-captured error and produces no rows; with `save_theta = True` after a run
that completed `k` epochs, export with sampling stride `s > 0` produces
exactly `⌈k / s⌉ = (k + s - 1) / s` data rows in the fixed column order of the
key index, headed by the keys formatted `"<control>-<target>"` joined by
commas. -/
theorem export_spec (index : List GKey) (stride : ℕ) (hstr : 0 < stride)
    (hne : index ≠ []) (P : Params) (c : Circuit) (log : ℚ → ℚ)
    (theta0 gradient0 : GKey → ℚ) (r : TrainState) (k : ℕ)
    (hs : P.save_theta = true) (he : 1 ≤ P.epochs)
    (hrun : train P c log theta0 gradient0 = Except.ok r)
    (hk : r.loss.length = k) :
    export_training_theta false index (materialize index r.training_theta)
      stride = Except.error ("The attribute save_theta is False") ∧
    ∃ rows : List (List ℚ),
      export_training_theta true index (materialize index r.training_theta)
        stride = Except.ok (some (commaJoinKeys index), rows) ∧
      rows.length = (k + stride - 1) / stride := by
  have hlen : r.training_theta.length = k := by
    obtain ⟨_, _, _, _, _, _, h7⟩ :=
      trainAux_master P c log P.epochs 0 (initState P theta0 gradient0) r
        (by omega) (by omega) (by simp [initState]) (by simp [initState]) hrun
    obtain ⟨ext, hext, _, _, hextlen⟩ := h7 hs
    have hexts : r.training_theta = ext := by simpa [initState] using hext
    rw [hexts, hextlen, hk]
    omega
  constructor
  · simp [export_training_theta]
  · refine ⟨strideSlice (materialize index r.training_theta) stride, ?_, ?_⟩
    · simp [export_training_theta, buildHeader_eq index hne]
    · rw [strideSlice_length _ _ hstr]
      simp [materialize, List.length_map, hlen]

/-- C8 witness: export of the concrete two-epoch trajectory with stride 3. -/
theorem export_spec_witness :
    export_training_theta false [("a", "a")]
      (materialize [("a", "a")] wFinal.training_theta) 3 =
      Except.error ("The attribute save_theta is False") ∧
    ∃ rows : List (List ℚ),
      export_training_theta true [("a", "a")]
        (materialize [("a", "a")] wFinal.training_theta) 3 =
        Except.ok (some (commaJoinKeys [("a", "a")]), rows) ∧
      rows.length = (2 + 3 - 1) / 3 :=
  export_spec [("a", "a")] 3 (by decide) (by decide) wP wC wLog wTheta wTheta
    wFinal 2 rfl (by decide) wRun_eq wFinal_loss_length

/-- C2 counterexample: at the spec's example configuration (method
"difference"), the very first epoch's gradient assembly raises the
unsupported-method error, so training does not complete any epoch and records
no loss history. -/
theorem train_difference_counterexample :
    errOf (train exP exC (fun _ => 0) (fun _ => 0) (fun _ => 0)) =
      some (gradientUnsupportedMsg ("difference")) := rfl

/-- C2 amended: training with method "difference" does not complete its
epochs: for any circuit and any inputs, the first epoch's gradient assembly
fails with the unsupported-method error naming "difference", so no loss or
error entries are ever recorded. -/
theorem train_difference_errors (P : Params) (c : Circuit) (log : ℚ → ℚ)
    (theta0 gradient0 : GKey → ℚ)
    (hm : P.method = "difference") (he : 1 ≤ P.epochs) :
    train P c log theta0 gradient0 =
      Except.error (gradientUnsupportedMsg ("difference")) := by
  obtain ⟨n, hn⟩ : ∃ n, P.epochs = n + 1 := ⟨P.epochs - 1, by omega⟩
  have hcg : compute_gradient log P.method P.train_encoder P.genes P.edges
      P.ncells P.p_obs
      (c.outputProbabilities (initState P theta0 gradient0).theta)
      (c.outputState (initState P theta0 gradient0).theta)
      (some (c.derivatives (initState P theta0 gradient0).theta))
      (initState P theta0 gradient0).gradient =
      Except.error (gradientUnsupportedMsg ("difference")) := by
    rw [hm]
    simp only [compute_gradient]
    rw [if_neg (by decide)]
  show trainAux P c log P.epochs 0 (initState P theta0 gradient0) = _
  rw [hn]
  exact trainAux_error_grad P c log n 0 (initState P theta0 gradient0) _ hcg

/-- C2 amended witness at the spec's example configuration. -/
theorem train_difference_errors_witness :
    exP.method = "difference" ∧ 1 ≤ exP.epochs ∧
    train exP exC (fun _ => 0) (fun _ => 0) (fun _ => 0) =
      Except.error (gradientUnsupportedMsg ("difference")) :=
  ⟨rfl, by decide, train_difference_errors exP exC (fun _ => 0) (fun _ => 0)
    (fun _ => 0) rfl (by decide)⟩

end QSCGRN
